import Mathlib

/-!
Verification of the evaluation script `evaluate.py` of the
cs224n glossary-extraction repository.

The script's `evaluate` function runs a model over `num_steps` batches,
collects a per-batch summary dictionary (metric values plus a `loss`
entry), averages and sums the summaries, derives precision / recall / F1
from the summed confusion counts, deletes the raw `tp` / `fp` / `fn`
entries, and returns the metrics dictionary together with the running
average of the loss.

Python dictionaries with string keys and float values are modelled as
association lists with Python semantics (insertion order preserved,
update in place, append on new key, `KeyError` as `none`); floats are
modelled as rationals.
-/

namespace GlossaryEval

/-- A Python dict with string keys and float (here: rational) values,
kept in insertion order. -/
abbrev Dict := List (String × ℚ)

/-- The list of keys of a dict, in order. -/
def dictKeys (d : Dict) : List String := d.map Prod.fst

/-- Python `k in d`. -/
def dictContains (d : Dict) (k : String) : Bool := d.any (fun q => q.1 == k)

/-- Python `d[k]`: `some` value on hit, `none` models the `KeyError`. -/
def dictGet? : Dict → String → Option ℚ
  | [], _ => none
  | q :: d, k => if q.1 = k then some q.2 else dictGet? d k

/-- Replace the value stored under key `k` in place (Python dicts have
distinct keys, so rewriting every hit equals rewriting the one hit). -/
def dictUpdate : Dict → String → ℚ → Dict
  | [], _, _ => []
  | q :: d, k, v => if q.1 = k then (k, v) :: dictUpdate d k v else q :: dictUpdate d k v

/-- Python `d[k] = v`: update in place when the key is present,
append at the end otherwise. -/
def dictSet (d : Dict) (k : String) (v : ℚ) : Dict :=
  if dictContains d k then dictUpdate d k v else d ++ [(k, v)]

/-- Python `del d[k]`: `none` models the `KeyError` on a missing key. -/
def dictDel? (d : Dict) (k : String) : Option Dict :=
  if dictContains d k then some (d.filter (fun q => q.1 != k)) else none

/-! Model of `evaluate` (lines 19-98 of `evaluate.py`).

The neural network, the loss function and the metric functions are
opaque parameters of the script (`model`, `loss_fn`, `metrics`), so the
embedding abstracts them as functions into the rationals; the data
iterator is a stream together with a cursor recording how many `next`
calls have been made. -/

/-- Evaluation over summands of a list of optional values: the Python
list comprehension, where a failing element (an uncaught exception)
aborts the whole computation. -/
def optMapM {α β : Type} (f : α → Option β) : List α → Option (List β)
  | [] => some []
  | x :: xs =>
    Option.bind (f x) (fun y =>
      Option.bind (optMapM f xs) (fun ys => some (y :: ys)))

/-- `np.mean` on a list of floats: sum divided by length. -/
def npMean (l : List ℚ) : ℚ := l.sum / (l.length : ℚ)

/-- `np.sum` on a list of floats. -/
def npSum (l : List ℚ) : ℚ := l.sum

/-- Lines 78-82 of `evaluate.py`:
`p = r = f1 = 0.0`, then `if tp != 0:` recompute
`p = tp/(tp+fp)`, `r = tp/(tp+fn)`, `f1 = 2*(p*r)/(p+r)`.
Returns `(p, r, f1)`. -/
def f1Computation (tp fp fn : ℚ) : ℚ × ℚ × ℚ :=
  if tp ≠ 0 then
    let p := tp / (tp + fp)
    let r := tp / (tp + fn)
    (p, r, 2 * (p * r) / (p + r))
  else (0, 0, 0)

/-- Modelled from the spec: `utils.RunningAverage` is imported from
`utils`, which is not part of the sources; the spec describes the loop
as accumulating per-batch metrics and averaging them, so the running
average keeps a step count and a running total, `update` adds one
value, and calling the object returns `total / steps`. -/
structure RunningAverage where
  steps : Nat
  total : ℚ

def RunningAverage.init : RunningAverage := ⟨0, 0⟩

def RunningAverage.update (r : RunningAverage) (v : ℚ) : RunningAverage :=
  ⟨r.steps + 1, r.total + v⟩

/-- Python `loss_avg()`. -/
def RunningAverage.value (r : RunningAverage) : ℚ := r.total / (r.steps : ℚ)

/-- The opaque arguments of `evaluate`: the model, the loss function,
the label extraction `data_batch['slabels']`, and the metrics
dictionary (its keys and the function stored under each key). -/
structure EvalArgs (B O L : Type) where
  model : B → O
  lossFn : O → L → ℚ
  batchLabels : B → L
  metricKeys : List String
  metricFn : String → O → L → ℚ

/-- A Python generator of batches: the underlying stream of yielded
values and the number of `next` calls already made. -/
structure IterSt (B : Type) where
  stream : Nat → B
  pos : Nat

/-- One `next(data_iterator)` call. -/
def IterSt.next {B : Type} (s : IterSt B) : B × IterSt B :=
  (s.stream s.pos, ⟨s.stream, s.pos + 1⟩)

variable {B O L : Type}

/-- Lines 43-57: the per-batch summary dictionary
`{metric: metrics[metric](output_batch, labels_batch) for metric in metrics}`
followed by `summary_batch['loss'] = loss.item()`. -/
def mkSummary (A : EvalArgs B O L) (b : B) : Dict :=
  let out := A.model b
  let lab := A.batchLabels b
  dictSet (A.metricKeys.map (fun k => (k, A.metricFn k out lab)))
    "loss" (A.lossFn out lab)

/-- The loss of one batch, `loss_fn(model(data_batch), data_batch['slabels'])`. -/
def batchLoss (A : EvalArgs B O L) (b : B) : ℚ :=
  A.lossFn (A.model b) (A.batchLabels b)

/-- The value stored in the per-batch summary under key `k`
(for `k` among the summary's keys). -/
def summaryValue (A : EvalArgs B O L) (b : B) (k : String) : ℚ :=
  if k = "loss" then batchLoss A b
  else A.metricFn k (A.model b) (A.batchLabels b)

/-- The key list shared by every per-batch summary: the metric keys,
with `loss` appended when it is not already a metric key. -/
def summKeysDef (A : EvalArgs B O L) : List String :=
  if "loss" ∈ A.metricKeys then A.metricKeys else A.metricKeys ++ ["loss"]

/-- The loop state of `evaluate`: the `summ` list, the `loss_avg`
accumulator and the (mutated) data iterator. -/
structure LoopState (B : Type) where
  summ : List Dict
  lossAvg : RunningAverage
  iter : IterSt B

/-- One iteration of the `for _ in range(num_steps)` loop, lines 41-70
(the `__main__`-only tagged-sentence block writes to a separate list and
does not touch the loop state modelled here). -/
def evalStep (A : EvalArgs B O L) (st : LoopState B) : LoopState B :=
  let fetched := st.iter.next
  let b := fetched.1
  ⟨st.summ ++ [mkSummary A b], st.lossAvg.update (batchLoss A b), fetched.2⟩

/-- The whole loop: `n` iterations of `evalStep`. -/
def evalLoop (A : EvalArgs B O L) (st : LoopState B) : Nat → LoopState B
  | 0 => st
  | n + 1 => evalStep A (evalLoop A st n)

/-- Lines 75-87 of `evaluate.py`, given the already-built `metrics_mean`
and `metrics_sum` dictionaries: read the summed `tp`, `fp`, `fn`,
compute precision / recall / F1, store them in `metrics_mean`, and
delete the `tp`, `fp`, `fn` entries. -/
def aggregateTail (metricsMean metricsSum : Dict) : Option Dict :=
  Option.bind (dictGet? metricsSum "tp") (fun tp =>
  Option.bind (dictGet? metricsSum "fp") (fun fp =>
  Option.bind (dictGet? metricsSum "fn") (fun fn =>
  let t := f1Computation tp fp fn
  let m₁ := dictSet metricsMean "f1score" t.2.2
  let m₂ := dictSet m₁ "precision" t.1
  let m₃ := dictSet m₂ "recall" t.2.1
  Option.bind (dictDel? m₃ "tp") (fun m₄ =>
  Option.bind (dictDel? m₄ "fp") (fun m₅ =>
  Option.bind (dictDel? m₅ "fn") (fun m₆ =>
  some m₆))))))

/-- Lines 71-87 of `evaluate.py`: `metrics_mean`, `metrics_sum` (both
dict comprehensions over the keys of `summ[0]`, where `summ[0]` on an
empty list raises `IndexError`, modelled by `head?`), then the F1 /
deletion block. -/
def aggregate (summ : List Dict) : Option Dict :=
  Option.bind summ.head? (fun first =>
  Option.bind (optMapM (fun k =>
      (optMapM (fun x => dictGet? x k) summ).map (fun vals => (k, npMean vals)))
      (dictKeys first)) (fun metricsMean =>
  Option.bind (optMapM (fun k =>
      (optMapM (fun x => dictGet? x k) summ).map (fun vals => (k, npSum vals)))
      (dictKeys first)) (fun metricsSum =>
  aggregateTail metricsMean metricsSum)))

/-- The `evaluate` function: run the loop for `numSteps` batches,
aggregate, and return `metrics_mean` together with `loss_avg()`.
`none` models an uncaught exception. -/
def evaluate (A : EvalArgs B O L) (st : IterSt B) (numSteps : Nat) :
    Option (Dict × ℚ) :=
  let final := evalLoop A ⟨[], RunningAverage.init, st⟩ numSteps
  Option.bind (aggregate final.summ) (fun m => some (m, final.lossAvg.value))

/-- The list of values a metric key takes over the `n` fetched batches. -/
def valsAt (A : EvalArgs B O L) (st : IterSt B) (n : Nat) (k : String) : List ℚ :=
  (List.range n).map (fun i => summaryValue A (st.stream (st.pos + i)) k)

/-- `metrics_sum[k]`: the summed value of metric `k` over all batches. -/
def sumMetric (A : EvalArgs B O L) (st : IterSt B) (n : Nat) (k : String) : ℚ :=
  npSum (valsAt A st n k)

/-- `metrics_mean[k]` before the F1 block: the mean value of metric `k`
over all batches. -/
def meanMetric (A : EvalArgs B O L) (st : IterSt B) (n : Nat) (k : String) : ℚ :=
  npMean (valsAt A st n k)

/-- The `metrics_mean` dictionary before the F1 block. -/
def meanDict (A : EvalArgs B O L) (st : IterSt B) (n : Nat) : Dict :=
  (summKeysDef A).map (fun k => (k, meanMetric A st n k))

/-- The `metrics_sum` dictionary. -/
def sumDictD (A : EvalArgs B O L) (st : IterSt B) (n : Nat) : Dict :=
  (summKeysDef A).map (fun k => (k, sumMetric A st n k))

/-- The returned `metrics_mean` dictionary in closed form: the mean
dictionary, updated with `f1score`, `precision`, `recall`, with the
`tp`, `fp`, `fn` entries removed. -/
def finalMetrics (A : EvalArgs B O L) (st : IterSt B) (n : Nat) : Dict :=
  let t := f1Computation (sumMetric A st n "tp") (sumMetric A st n "fp")
    (sumMetric A st n "fn")
  (((dictSet (dictSet (dictSet (meanDict A st n) "f1score" t.2.2)
        "precision" t.1) "recall" t.2.1).filter
      (fun q => q.1 != "tp")).filter
    (fun q => q.1 != "fp")).filter (fun q => q.1 != "fn")

/-- The mean of the per-batch losses. -/
def lossMean (A : EvalArgs B O L) (st : IterSt B) (n : Nat) : ℚ :=
  npMean (valsAt A st n "loss")

/-! Model of the file-name contract and the startup assertion of the
`__main__` block (lines 92-96, 101-108, 149-155). -/

/-- Whether a path string begins with a slash (posix absolute path). -/
def startsWithSlash (s : String) : Bool := s.data.head? == some '/'

/-- Whether a path string ends with a slash. -/
def endsWithSlash (s : String) : Bool := s.data.getLast? == some '/'

/-- posix `os.path.join` on two components: the second component wins
when absolute; otherwise the two are glued, inserting a slash unless
the first is empty or already ends in one. -/
def osPathJoin (a b : String) : String :=
  if startsWithSlash b then b
  else if a = "" then a ++ b
  else if endsWithSlash a then a ++ b
  else a ++ "/" ++ b

/-- Line 149: the checkpoint is read from
`os.path.join(args.model_dir, args.restore_file + ".pth.tar")`. -/
def checkpointPath (modelDir restoreFile : String) : String :=
  osPathJoin modelDir (restoreFile ++ ".pth.tar")

/-- Line 154: the metrics dictionary is written to
`os.path.join(args.model_dir, "metrics_test_<restore_file>.json")`,
the format placeholder filled with the restore-file name. -/
def metricsSavePath (modelDir restoreFile : String) : String :=
  osPathJoin modelDir ("metrics_test_" ++ restoreFile ++ ".json")

/-- Line 94: the tagged-sentences dump is written to
`os.path.join(args.model_dir, "output_tagged_sentences.txt")`. -/
def taggedSentencesPath (modelDir : String) : String :=
  osPathJoin modelDir "output_tagged_sentences.txt"

/-- Line 96: the dump content is the newline-join of the tagged
sentences. -/
def taggedSentencesContent (lines : List String) : String :=
  String.intercalate "\n" lines

/-- Line 107: `os.path.join(args.model_dir, "params.json")`. -/
def paramsJsonPath (modelDir : String) : String :=
  osPathJoin modelDir "params.json"

/-- Line 108: `assert os.path.isfile(json_path)`, the script's only
assertion, parameterised by the file-existence predicate of the host
file system. -/
def mainStartupCheck (isFile : String → Bool) (modelDir : String) :
    Except String Unit :=
  if isFile (paramsJsonPath modelDir) then Except.ok ()
  else Except.error ("No json configuration file found at " ++ paramsJsonPath modelDir)

def wArgs : EvalArgs Unit Unit Unit :=
  ⟨fun _ => (), fun _ _ => 2, fun _ => (), ["tp", "fp", "fn"],
    fun k _ _ => if k = "tp" then 1 else if k = "fp" then 1
      else if k = "fn" then 1 else 0⟩

def wIter : IterSt Unit := ⟨fun _ => (), 0⟩

def cArgs : EvalArgs Unit Unit Unit :=
  ⟨fun _ => (), fun _ _ => 2, fun _ => (), ["tp", "fp", "fn", "precision"],
    fun k _ _ => if k = "precision" then 7 else 1⟩

theorem mem_dictKeys_cons {q : String × ℚ} {d : Dict} {k : String} :
    k ∈ dictKeys (q :: d) ↔ k = q.1 ∨ k ∈ dictKeys d := by
  simp [dictKeys]

theorem dictContains_iff {d : Dict} {k : String} :
    dictContains d k = true ↔ k ∈ dictKeys d := by
  induction d with
  | nil => simp [dictContains, dictKeys]
  | cons q d ih =>
    simp only [dictContains, List.any_cons, Bool.or_eq_true, beq_iff_eq] at ih ⊢
    rw [mem_dictKeys_cons, ← ih]
    constructor
    · rintro (h | h)
      · exact Or.inl h.symm
      · exact Or.inr h
    · rintro (h | h)
      · exact Or.inl h.symm
      · exact Or.inr h

theorem dictGet?_eq_some_of_mem {d : Dict} {k : String} (h : k ∈ dictKeys d) :
    ∃ v, dictGet? d k = some v := by
  induction d with
  | nil => simp [dictKeys] at h
  | cons q d ih =>
    by_cases hq : q.1 = k
    · exact ⟨q.2, by simp [dictGet?, hq]⟩
    · have h' : k ∈ dictKeys d := by
        rcases mem_dictKeys_cons.mp h with h | h
        · exact absurd h.symm hq
        · exact h
      rcases ih h' with ⟨v, hv⟩
      exact ⟨v, by simp [dictGet?, hq, hv]⟩

theorem mem_of_dictGet?_eq_some {d : Dict} {k : String} {v : ℚ}
    (h : dictGet? d k = some v) : k ∈ dictKeys d := by
  induction d with
  | nil => simp [dictGet?] at h
  | cons q d ih =>
    by_cases hq : q.1 = k
    · exact mem_dictKeys_cons.mpr (Or.inl hq.symm)
    · simp only [dictGet?, hq, if_false] at h
      exact mem_dictKeys_cons.mpr (Or.inr (ih h))

/-- Looking a key up in an assoc list built from a key list by a value
function. -/
theorem dictGet?_map_pair (l : List String) (g : String → ℚ) (k : String) :
    dictGet? (l.map (fun k' => (k', g k'))) k
      = if k ∈ l then some (g k) else none := by
  induction l with
  | nil => simp [dictGet?]
  | cons a l ih =>
    by_cases ha : a = k
    · subst ha
      simp [dictGet?]
    · simp [dictGet?, ha, ih, Ne.symm ha]

theorem dictKeys_map_pair (l : List String) (g : String → ℚ) :
    dictKeys (l.map (fun k' => (k', g k'))) = l := by
  simp [dictKeys, List.map_map]
  exact List.map_id l

theorem dictGet?_append_single_ne {d : Dict} {k k' : String} (v : ℚ)
    (h : k' ≠ k) : dictGet? (d ++ [(k, v)]) k' = dictGet? d k' := by
  induction d with
  | nil => simp [dictGet?, Ne.symm h]
  | cons q d ih =>
    by_cases hq : q.1 = k'
    · simp [dictGet?, hq]
    · simp [dictGet?, hq, ih]

theorem dictGet?_append_right {d₁ d₂ : Dict} {k : String}
    (h : k ∉ dictKeys d₁) : dictGet? (d₁ ++ d₂) k = dictGet? d₂ k := by
  induction d₁ with
  | nil => simp
  | cons q d ih =>
    have hq : q.1 ≠ k := by
      intro he
      exact h (mem_dictKeys_cons.mpr (Or.inl he.symm))
    have h' : k ∉ dictKeys d := fun hm => h (mem_dictKeys_cons.mpr (Or.inr hm))
    simp [dictGet?, hq, ih h']

theorem dictGet?_dictUpdate_self {d : Dict} {k : String} (v : ℚ)
    (h : k ∈ dictKeys d) : dictGet? (dictUpdate d k v) k = some v := by
  induction d with
  | nil => simp [dictKeys] at h
  | cons q d ih =>
    by_cases hq : q.1 = k
    · simp [dictUpdate, hq, dictGet?]
    · have h' : k ∈ dictKeys d := by
        rcases mem_dictKeys_cons.mp h with h | h
        · exact absurd h.symm hq
        · exact h
      simp [dictUpdate, hq, dictGet?, ih h']

theorem dictGet?_dictUpdate_ne {d : Dict} {k k' : String} (v : ℚ)
    (h : k' ≠ k) : dictGet? (dictUpdate d k v) k' = dictGet? d k' := by
  induction d with
  | nil => simp [dictUpdate]
  | cons q d ih =>
    by_cases hq : q.1 = k
    · have hq' : q.1 ≠ k' := by rw [hq]; exact Ne.symm h
      simp [dictUpdate, hq, dictGet?, Ne.symm h, hq', ih]
    · by_cases hq' : q.1 = k'
      · simp [dictUpdate, hq, dictGet?, hq', h]
      · simp [dictUpdate, hq, dictGet?, hq', h, ih]

theorem dictGet?_dictSet_self (d : Dict) (k : String) (v : ℚ) :
    dictGet? (dictSet d k v) k = some v := by
  unfold dictSet
  by_cases hc : dictContains d k = true
  · rw [if_pos hc]
    exact dictGet?_dictUpdate_self v (dictContains_iff.mp hc)
  · rw [if_neg hc]
    have hk : k ∉ dictKeys d := fun hm => hc (dictContains_iff.mpr hm)
    rw [dictGet?_append_right hk]
    simp [dictGet?]

theorem dictGet?_dictSet_ne (d : Dict) {k k' : String} (v : ℚ) (h : k' ≠ k) :
    dictGet? (dictSet d k v) k' = dictGet? d k' := by
  unfold dictSet
  by_cases hc : dictContains d k = true
  · rw [if_pos hc]
    exact dictGet?_dictUpdate_ne v h
  · rw [if_neg hc]
    exact dictGet?_append_single_ne v h

theorem mem_dictKeys_dictUpdate_of_ne {d : Dict} {k k' : String} {v : ℚ}
    (h : k' ≠ k) : k' ∈ dictKeys (dictUpdate d k v) ↔ k' ∈ dictKeys d := by
  induction d with
  | nil => simp [dictUpdate]
  | cons q d ih =>
    by_cases hq : q.1 = k
    · have hq' : q.1 ≠ k' := by rw [hq]; exact Ne.symm h
      rw [dictUpdate, if_pos hq, mem_dictKeys_cons, mem_dictKeys_cons, ih]
      constructor
      · rintro (he | he)
        · exact absurd he h
        · exact Or.inr he
      · rintro (he | he)
        · exact absurd (hq ▸ he) h
        · exact Or.inr he
    · rw [dictUpdate, if_neg hq, mem_dictKeys_cons, mem_dictKeys_cons, ih]

theorem mem_dictKeys_dictSet_of_ne {d : Dict} {k k' : String} {v : ℚ}
    (h : k' ≠ k) : k' ∈ dictKeys (dictSet d k v) ↔ k' ∈ dictKeys d := by
  unfold dictSet
  by_cases hc : dictContains d k = true
  · rw [if_pos hc]
    exact mem_dictKeys_dictUpdate_of_ne h
  · rw [if_neg hc]
    simp [dictKeys, h]

theorem self_mem_dictKeys_dictSet (d : Dict) (k : String) (v : ℚ) :
    k ∈ dictKeys (dictSet d k v) := by
  unfold dictSet
  by_cases hc : dictContains d k = true
  · rw [if_pos hc]
    have h := dictContains_iff.mp hc
    induction d with
    | nil => simp [dictKeys] at h
    | cons q d ih =>
      by_cases hq : q.1 = k
      · rw [dictUpdate, if_pos hq]
        exact mem_dictKeys_cons.mpr (Or.inl rfl)
      · have h' : k ∈ dictKeys d := by
          rcases mem_dictKeys_cons.mp h with h | h
          · exact absurd h.symm hq
          · exact h
        have hc' : dictContains d k = true := dictContains_iff.mpr h'
        rw [dictUpdate, if_neg hq]
        exact mem_dictKeys_cons.mpr (Or.inr (ih hc' h'))
  · rw [if_neg hc]
    simp [dictKeys]

theorem dictGet?_filter_ne {d : Dict} {k k' : String} (h : k' ≠ k) :
    dictGet? (d.filter (fun q => q.1 != k)) k' = dictGet? d k' := by
  induction d with
  | nil => simp
  | cons q d ih =>
    by_cases hq : q.1 = k
    · have hq' : q.1 ≠ k' := by rw [hq]; exact Ne.symm h
      rw [List.filter_cons_of_neg (by simp [hq])]
      simp [dictGet?, hq', ih]
    · rw [List.filter_cons_of_pos (by simp [hq])]
      by_cases hq' : q.1 = k'
      · simp [dictGet?, hq']
      · simp [dictGet?, hq', ih]

theorem mem_dictKeys_filter {d : Dict} {k k' : String} :
    k' ∈ dictKeys (d.filter (fun q => q.1 != k)) ↔ k' ∈ dictKeys d ∧ k' ≠ k := by
  induction d with
  | nil => simp [dictKeys]
  | cons q d ih =>
    by_cases hq : q.1 = k
    · rw [List.filter_cons_of_neg (by simp [hq]), ih, mem_dictKeys_cons]
      constructor
      · rintro ⟨hm, hne⟩
        exact ⟨Or.inr hm, hne⟩
      · rintro ⟨hm | hm, hne⟩
        · exact absurd (hq ▸ hm) hne
        · exact ⟨hm, hne⟩
    · rw [List.filter_cons_of_pos (by simp [hq]), mem_dictKeys_cons, ih,
        mem_dictKeys_cons]
      constructor
      · rintro (he | ⟨hm, hne⟩)
        · exact ⟨Or.inl he, by rw [he]; exact hq⟩
        · exact ⟨Or.inr hm, hne⟩
      · rintro ⟨he | hm, hne⟩
        · exact Or.inl he
        · exact Or.inr ⟨hm, hne⟩

/-! Structural lemmas. -/

theorem optMapM_eq_map {α β : Type} {f : α → Option β} {g : α → β} :
    ∀ {l : List α}, (∀ x ∈ l, f x = some (g x)) → optMapM f l = some (l.map g)
  | [], _ => rfl
  | x :: xs, h => by
    have hx : f x = some (g x) := h x (List.mem_cons_self x xs)
    have hxs : optMapM f xs = some (xs.map g) :=
      optMapM_eq_map (fun y hy => h y (List.mem_cons_of_mem x hy))
    simp [optMapM, hx, hxs]

theorem optMapM_map_comp {α β γ : Type} (h : α → β) (f : β → Option γ) :
    ∀ (l : List α), optMapM f (l.map h) = optMapM (fun a => f (h a)) l
  | [] => rfl
  | x :: xs => by
    simp [optMapM, optMapM_map_comp h f xs]

theorem head?_map_range {α : Type} (f : Nat → α) {n : Nat} (hn : 0 < n) :
    ((List.range n).map f).head? = some (f 0) := by
  cases n with
  | zero => exact absurd hn (by omega)
  | succ m => rw [List.range_succ_eq_map]; simp

theorem dictKeys_dictUpdate (d : Dict) (k : String) (v : ℚ) :
    dictKeys (dictUpdate d k v) = dictKeys d := by
  induction d with
  | nil => rfl
  | cons q d ih =>
    by_cases hq : q.1 = k
    · rw [dictUpdate, if_pos hq]
      simp only [dictKeys, List.map_cons] at ih ⊢
      rw [ih]
      simp [hq]
    · rw [dictUpdate, if_neg hq]
      simp only [dictKeys, List.map_cons] at ih ⊢
      rw [ih]

theorem dictKeys_dictSet (d : Dict) (k : String) (v : ℚ) :
    dictKeys (dictSet d k v) =
      if dictContains d k then dictKeys d else dictKeys d ++ [k] := by
  unfold dictSet
  by_cases hc : dictContains d k = true
  · rw [if_pos hc, if_pos hc, dictKeys_dictUpdate]
  · rw [if_neg hc, if_neg hc]
    simp [dictKeys]

theorem dictKeys_mkSummary (A : EvalArgs B O L) (b : B) :
    dictKeys (mkSummary A b) = summKeysDef A := by
  unfold mkSummary summKeysDef
  rw [dictKeys_dictSet]
  rw [dictKeys_map_pair]
  by_cases hl : "loss" ∈ A.metricKeys
  · rw [if_pos hl, if_pos]
    rw [dictContains_iff, dictKeys_map_pair]
    exact hl
  · rw [if_neg hl, if_neg]
    rw [dictContains_iff, dictKeys_map_pair]
    exact hl

theorem loss_mem_summKeysDef (A : EvalArgs B O L) : "loss" ∈ summKeysDef A := by
  unfold summKeysDef
  by_cases hl : "loss" ∈ A.metricKeys
  · rw [if_pos hl]; exact hl
  · rw [if_neg hl]; simp

theorem mem_metricKeys_of_mem_summKeysDef {A : EvalArgs B O L} {k : String}
    (hk : k ∈ summKeysDef A) (hne : k ≠ "loss") : k ∈ A.metricKeys := by
  unfold summKeysDef at hk
  by_cases hl : "loss" ∈ A.metricKeys
  · rwa [if_pos hl] at hk
  · rw [if_neg hl] at hk
    rcases List.mem_append.mp hk with h | h
    · exact h
    · simp at h
      exact absurd h hne

theorem dictGet?_mkSummary {A : EvalArgs B O L} (b : B) {k : String}
    (hk : k ∈ summKeysDef A) :
    dictGet? (mkSummary A b) k = some (summaryValue A b k) := by
  unfold mkSummary summaryValue
  by_cases hl : k = "loss"
  · subst hl
    rw [if_pos rfl, dictGet?_dictSet_self]
    rfl
  · rw [if_neg hl, dictGet?_dictSet_ne _ _ hl, dictGet?_map_pair,
      if_pos (mem_metricKeys_of_mem_summKeysDef hk hl)]

theorem valsAt_loss (A : EvalArgs B O L) (st : IterSt B) (n : Nat) :
    valsAt A st n "loss"
      = (List.range n).map (fun i => batchLoss A (st.stream (st.pos + i))) := by
  unfold valsAt summaryValue
  simp

/-- Closed form of the evaluation loop: summaries are appended in batch
order, the loss accumulator holds the count and total of the per-batch
losses, and the iterator cursor advances by one per iteration. -/
theorem evalLoop_eq (A : EvalArgs B O L) (st : LoopState B) (n : Nat) :
    evalLoop A st n =
      ⟨st.summ ++ (List.range n).map
          (fun i => mkSummary A (st.iter.stream (st.iter.pos + i))),
        ⟨st.lossAvg.steps + n,
          st.lossAvg.total + ((List.range n).map
            (fun i => batchLoss A (st.iter.stream (st.iter.pos + i)))).sum⟩,
        ⟨st.iter.stream, st.iter.pos + n⟩⟩ := by
  induction n with
  | zero =>
    obtain ⟨s, ⟨steps, total⟩, ⟨stream, pos⟩⟩ := st
    simp [evalLoop]
  | succ n ih =>
    rw [evalLoop, ih]
    obtain ⟨s, ⟨steps, total⟩, ⟨stream, pos⟩⟩ := st
    simp only [evalStep, IterSt.next, RunningAverage.update, List.range_succ,
      List.map_append, List.map_cons, List.map_nil, List.sum_append,
      List.sum_cons, List.sum_nil, List.append_assoc, LoopState.mk.injEq,
      RunningAverage.mk.injEq, IterSt.mk.injEq]
    refine ⟨?_, ⟨?_, ?_⟩, ?_, ?_⟩ <;> first | rfl | omega | simp [add_assoc]

theorem summ_evalLoop (A : EvalArgs B O L) (st : IterSt B) (n : Nat) :
    (evalLoop A ⟨[], RunningAverage.init, st⟩ n).summ
      = (List.range n).map (fun i => mkSummary A (st.stream (st.pos + i))) := by
  rw [evalLoop_eq]
  simp

theorem lossAvg_evalLoop (A : EvalArgs B O L) (st : IterSt B) (n : Nat) :
    (evalLoop A ⟨[], RunningAverage.init, st⟩ n).lossAvg
      = ⟨n, ((List.range n).map (fun i => batchLoss A (st.stream (st.pos + i)))).sum⟩ := by
  rw [evalLoop_eq]
  simp [RunningAverage.init]

theorem dictKeys_meanDict (A : EvalArgs B O L) (st : IterSt B) (n : Nat) :
    dictKeys (meanDict A st n) = summKeysDef A :=
  dictKeys_map_pair _ _

theorem optMapM_get_summ {A : EvalArgs B O L} {st : IterSt B} {n : Nat}
    {k : String} (hk : k ∈ summKeysDef A) :
    optMapM (fun x => dictGet? x k)
        ((List.range n).map (fun i => mkSummary A (st.stream (st.pos + i))))
      = some (valsAt A st n k) := by
  rw [optMapM_map_comp]
  exact optMapM_eq_map (fun i _ => dictGet?_mkSummary _ hk)

theorem optMapM_mean (A : EvalArgs B O L) (st : IterSt B) (n : Nat) :
    optMapM (fun k =>
        (optMapM (fun x => dictGet? x k)
          ((List.range n).map (fun i => mkSummary A (st.stream (st.pos + i))))).map
          (fun vals => (k, npMean vals))) (summKeysDef A)
      = some (meanDict A st n) := by
  refine optMapM_eq_map (fun k hk => ?_)
  rw [optMapM_get_summ hk]
  rfl

theorem optMapM_sum (A : EvalArgs B O L) (st : IterSt B) (n : Nat) :
    optMapM (fun k =>
        (optMapM (fun x => dictGet? x k)
          ((List.range n).map (fun i => mkSummary A (st.stream (st.pos + i))))).map
          (fun vals => (k, npSum vals))) (summKeysDef A)
      = some (sumDictD A st n) := by
  refine optMapM_eq_map (fun k hk => ?_)
  rw [optMapM_get_summ hk]
  rfl

theorem value_eq_lossMean (A : EvalArgs B O L) (st : IterSt B) (n : Nat) :
    RunningAverage.value
        ⟨n, ((List.range n).map (fun i => batchLoss A (st.stream (st.pos + i)))).sum⟩
      = lossMean A st n := by
  unfold RunningAverage.value lossMean npMean
  rw [valsAt_loss]
  simp

/-- `evaluate` on at least one batch, reduced up to the point where the
summed `tp`, `fp`, `fn` are read. -/
theorem evaluate_mid (A : EvalArgs B O L) (st : IterSt B) {n : Nat} (hn : 0 < n) :
    evaluate A st n
      = Option.bind (aggregateTail (meanDict A st n) (sumDictD A st n))
          (fun m => some (m, lossMean A st n)) := by
  have h1 : evaluate A st n
      = Option.bind (aggregate (evalLoop A ⟨[], RunningAverage.init, st⟩ n).summ)
          (fun m =>
            some (m, (evalLoop A ⟨[], RunningAverage.init, st⟩ n).lossAvg.value)) := rfl
  rw [h1, summ_evalLoop, lossAvg_evalLoop, value_eq_lossMean]
  simp only [aggregate]
  rw [head?_map_range _ hn]
  simp only [Option.some_bind]
  rw [dictKeys_mkSummary, optMapM_mean, optMapM_sum]
  simp only [Option.some_bind]

theorem mem_dictKeys_setThree {d : Dict} {k : String} (x y z : ℚ)
    (hk : k ∈ dictKeys d) (h1 : k ≠ "f1score") (h2 : k ≠ "precision")
    (h3 : k ≠ "recall") :
    k ∈ dictKeys (dictSet (dictSet (dictSet d "f1score" x) "precision" y)
        "recall" z) := by
  rw [mem_dictKeys_dictSet_of_ne h3, mem_dictKeys_dictSet_of_ne h2,
    mem_dictKeys_dictSet_of_ne h1]
  exact hk

/-- The tail of the aggregation succeeds and produces the closed-form
metrics dictionary whenever `tp`, `fp`, `fn` are among the summary
keys. -/
theorem aggregateTail_eq (A : EvalArgs B O L) (st : IterSt B) (n : Nat)
    (htp : "tp" ∈ summKeysDef A) (hfp : "fp" ∈ summKeysDef A)
    (hfn : "fn" ∈ summKeysDef A) :
    aggregateTail (meanDict A st n) (sumDictD A st n)
      = some (finalMetrics A st n) := by
  have hkeys := dictKeys_meanDict A st n
  unfold aggregateTail sumDictD finalMetrics
  rw [dictGet?_map_pair, if_pos htp]
  simp only [Option.some_bind]
  rw [dictGet?_map_pair, if_pos hfp]
  simp only [Option.some_bind]
  rw [dictGet?_map_pair, if_pos hfn]
  simp only [Option.some_bind]
  simp only [dictDel?]
  rw [if_pos (dictContains_iff.mpr (mem_dictKeys_setThree _ _ _
    (hkeys ▸ htp) (by decide) (by decide) (by decide)))]
  simp only [Option.some_bind]
  rw [if_pos (dictContains_iff.mpr (mem_dictKeys_filter.mpr
    ⟨mem_dictKeys_setThree _ _ _ (hkeys ▸ hfp) (by decide) (by decide) (by decide),
      by decide⟩))]
  simp only [Option.some_bind]
  rw [if_pos (dictContains_iff.mpr (mem_dictKeys_filter.mpr
    ⟨mem_dictKeys_filter.mpr
      ⟨mem_dictKeys_setThree _ _ _ (hkeys ▸ hfn) (by decide) (by decide) (by decide),
        by decide⟩, by decide⟩))]
  simp only [Option.some_bind]

/-- Forward characterisation of a successful run of `evaluate`. -/
theorem evaluate_eq (A : EvalArgs B O L) (st : IterSt B) {n : Nat} (hn : 0 < n)
    (htp : "tp" ∈ summKeysDef A) (hfp : "fp" ∈ summKeysDef A)
    (hfn : "fn" ∈ summKeysDef A) :
    evaluate A st n = some (finalMetrics A st n, lossMean A st n) := by
  rw [evaluate_mid A st hn, aggregateTail_eq A st n htp hfp hfn]
  simp only [Option.some_bind]

/-- Inversion: a successful run of `evaluate` forces at least one batch
and `tp`, `fp`, `fn` among the summary keys, and its results are the
closed forms. -/
theorem evaluate_some_inv {A : EvalArgs B O L} {st : IterSt B} {n : Nat}
    {m : Dict} {l : ℚ} (hs : evaluate A st n = some (m, l)) :
    0 < n ∧ "tp" ∈ summKeysDef A ∧ "fp" ∈ summKeysDef A ∧
      "fn" ∈ summKeysDef A ∧ m = finalMetrics A st n ∧ l = lossMean A st n := by
  have hn : 0 < n := by
    rcases Nat.eq_zero_or_pos n with h0 | h0
    · subst h0
      rw [show evaluate A st 0 = none from rfl] at hs
      exact absurd hs (by simp)
    · exact h0
  rw [evaluate_mid A st hn] at hs
  have htp : "tp" ∈ summKeysDef A := by
    by_contra hc
    unfold aggregateTail sumDictD at hs
    rw [dictGet?_map_pair, if_neg hc] at hs
    simp at hs
  have hfp : "fp" ∈ summKeysDef A := by
    by_contra hc
    unfold aggregateTail sumDictD at hs
    rw [dictGet?_map_pair, if_pos htp] at hs
    simp only [Option.some_bind] at hs
    rw [dictGet?_map_pair, if_neg hc] at hs
    simp at hs
  have hfn : "fn" ∈ summKeysDef A := by
    by_contra hc
    unfold aggregateTail sumDictD at hs
    rw [dictGet?_map_pair, if_pos htp] at hs
    simp only [Option.some_bind] at hs
    rw [dictGet?_map_pair, if_pos hfp] at hs
    simp only [Option.some_bind] at hs
    rw [dictGet?_map_pair, if_neg hc] at hs
    simp at hs
  rw [aggregateTail_eq A st n htp hfp hfn] at hs
  simp only [Option.some_bind, Option.some_inj, Prod.mk.injEq] at hs
  exact ⟨hn, htp, hfp, hfn, hs.1.symm, hs.2.symm⟩

theorem finalMetrics_get_precision (A : EvalArgs B O L) (st : IterSt B) (n : Nat) :
    dictGet? (finalMetrics A st n) "precision"
      = some (f1Computation (sumMetric A st n "tp") (sumMetric A st n "fp")
          (sumMetric A st n "fn")).1 := by
  unfold finalMetrics
  rw [dictGet?_filter_ne (by decide), dictGet?_filter_ne (by decide),
    dictGet?_filter_ne (by decide), dictGet?_dictSet_ne _ _ (by decide),
    dictGet?_dictSet_self]

theorem finalMetrics_get_recall (A : EvalArgs B O L) (st : IterSt B) (n : Nat) :
    dictGet? (finalMetrics A st n) "recall"
      = some (f1Computation (sumMetric A st n "tp") (sumMetric A st n "fp")
          (sumMetric A st n "fn")).2.1 := by
  unfold finalMetrics
  rw [dictGet?_filter_ne (by decide), dictGet?_filter_ne (by decide),
    dictGet?_filter_ne (by decide), dictGet?_dictSet_self]

theorem finalMetrics_get_f1score (A : EvalArgs B O L) (st : IterSt B) (n : Nat) :
    dictGet? (finalMetrics A st n) "f1score"
      = some (f1Computation (sumMetric A st n "tp") (sumMetric A st n "fp")
          (sumMetric A st n "fn")).2.2 := by
  unfold finalMetrics
  rw [dictGet?_filter_ne (by decide), dictGet?_filter_ne (by decide),
    dictGet?_filter_ne (by decide), dictGet?_dictSet_ne _ _ (by decide),
    dictGet?_dictSet_ne _ _ (by decide), dictGet?_dictSet_self]

theorem finalMetrics_get_other {A : EvalArgs B O L} {st : IterSt B} {n : Nat}
    {k : String} (hk : k ∈ summKeysDef A) (h1 : k ≠ "tp") (h2 : k ≠ "fp")
    (h3 : k ≠ "fn") (h4 : k ≠ "f1score") (h5 : k ≠ "precision")
    (h6 : k ≠ "recall") :
    dictGet? (finalMetrics A st n) k = some (meanMetric A st n k) := by
  unfold finalMetrics
  rw [dictGet?_filter_ne h3, dictGet?_filter_ne h2, dictGet?_filter_ne h1,
    dictGet?_dictSet_ne _ _ h6, dictGet?_dictSet_ne _ _ h5,
    dictGet?_dictSet_ne _ _ h4]
  unfold meanDict
  rw [dictGet?_map_pair, if_pos hk]

theorem f1Computation_pos {tp fp fn : ℚ} (h : tp ≠ 0) :
    f1Computation tp fp fn
      = (tp / (tp + fp), tp / (tp + fn),
          2 * ((tp / (tp + fp)) * (tp / (tp + fn)))
            / (tp / (tp + fp) + tp / (tp + fn))) := by
  unfold f1Computation
  rw [if_pos h]

theorem meanMetric_eq (A : EvalArgs B O L) (st : IterSt B) (n : Nat) (k : String) :
    meanMetric A st n k = (valsAt A st n k).sum / (n : ℚ) := by
  unfold meanMetric npMean
  rw [show (valsAt A st n k).length = n by simp [valsAt]]

theorem startsWithSlash_append {s t : String} (hs : startsWithSlash s = false)
    (ht : startsWithSlash t = false) : startsWithSlash (s ++ t) = false := by
  unfold startsWithSlash at hs ht ⊢
  rw [String.data_append]
  cases hd : s.data with
  | nil =>
    rw [hd] at hs
    simpa using ht
  | cons c cs =>
    rw [hd] at hs
    simpa using hs

/-! The claims. -/

/-- C1: in `evaluate`, given the summed confusion counts `tp`, `fp`,
`fn`, the precision / recall / F1 computation yields all zeros when
`tp = 0`, and precision `0.5`, recall `0.5`, F1 `0.5` when
`tp = fp = fn = 1`. -/
theorem claimC1 :
    (∀ fp fn : ℚ, f1Computation 0 fp fn = (0, 0, 0)) ∧
      f1Computation 1 1 1 = (1/2, 1/2, 1/2) := by
  constructor
  · intro fp fn
    simp [f1Computation]
  · norm_num [f1Computation]

/-- C2: on every run of `evaluate` whose summed true-positive count is
nonzero, the reported precision is `tp/(tp+fp)`, the reported recall is
`tp/(tp+fn)`, and the reported F1 is the harmonic mean `2*p*r/(p+r)` of
the two, where `tp`, `fp`, `fn` are the per-batch sums (not means). -/
theorem claimC2 (A : EvalArgs B O L) (st : IterSt B) (n : Nat) (m : Dict)
    (l : ℚ) (hs : evaluate A st n = some (m, l))
    (htp : sumMetric A st n "tp" ≠ 0) :
    dictGet? m "precision"
        = some (sumMetric A st n "tp"
            / (sumMetric A st n "tp" + sumMetric A st n "fp")) ∧
      dictGet? m "recall"
        = some (sumMetric A st n "tp"
            / (sumMetric A st n "tp" + sumMetric A st n "fn")) ∧
      dictGet? m "f1score"
        = some (2 * ((sumMetric A st n "tp"
              / (sumMetric A st n "tp" + sumMetric A st n "fp"))
            * (sumMetric A st n "tp"
              / (sumMetric A st n "tp" + sumMetric A st n "fn")))
          / (sumMetric A st n "tp"
              / (sumMetric A st n "tp" + sumMetric A st n "fp")
            + sumMetric A st n "tp"
              / (sumMetric A st n "tp" + sumMetric A st n "fn"))) := by
  obtain ⟨hn, htp2, hfp2, hfn2, hm, hl⟩ := evaluate_some_inv hs
  subst hm
  rw [finalMetrics_get_precision, finalMetrics_get_recall,
    finalMetrics_get_f1score, f1Computation_pos htp]
  exact ⟨rfl, rfl, rfl⟩

theorem claimC2_witness :
    evaluate wArgs wIter 1
        = some (finalMetrics wArgs wIter 1, lossMean wArgs wIter 1) ∧
      sumMetric wArgs wIter 1 "tp" ≠ 0 ∧
      (dictGet? (finalMetrics wArgs wIter 1) "precision"
          = some (sumMetric wArgs wIter 1 "tp"
              / (sumMetric wArgs wIter 1 "tp" + sumMetric wArgs wIter 1 "fp")) ∧
        dictGet? (finalMetrics wArgs wIter 1) "recall"
          = some (sumMetric wArgs wIter 1 "tp"
              / (sumMetric wArgs wIter 1 "tp" + sumMetric wArgs wIter 1 "fn")) ∧
        dictGet? (finalMetrics wArgs wIter 1) "f1score"
          = some (2 * ((sumMetric wArgs wIter 1 "tp"
                / (sumMetric wArgs wIter 1 "tp" + sumMetric wArgs wIter 1 "fp"))
              * (sumMetric wArgs wIter 1 "tp"
                / (sumMetric wArgs wIter 1 "tp" + sumMetric wArgs wIter 1 "fn")))
            / (sumMetric wArgs wIter 1 "tp"
                / (sumMetric wArgs wIter 1 "tp" + sumMetric wArgs wIter 1 "fp")
              + sumMetric wArgs wIter 1 "tp"
                / (sumMetric wArgs wIter 1 "tp" + sumMetric wArgs wIter 1 "fn")))) := by
  have hs : evaluate wArgs wIter 1
      = some (finalMetrics wArgs wIter 1, lossMean wArgs wIter 1) :=
    evaluate_eq wArgs wIter (show 0 < 1 by decide) (by decide) (by decide)
      (by decide)
  have htp : sumMetric wArgs wIter 1 "tp" ≠ 0 := by
    simp [sumMetric, npSum, valsAt, summaryValue, batchLoss, wArgs, wIter]
  exact ⟨hs, htp, claimC2 wArgs wIter 1 _ _ hs htp⟩

/-- C3: the `tp != 0` guard suffices: with a nonzero nonnegative summed
true-positive count and nonnegative `fp`, `fn`, the divisors `tp+fp`,
`tp+fn` and `p+r` of the precision / recall / F1 block are all
nonzero. -/
theorem claimC3 (tp fp fn : ℚ) (h0 : 0 ≤ tp) (hne : tp ≠ 0)
    (hfp : 0 ≤ fp) (hfn : 0 ≤ fn) :
    tp + fp ≠ 0 ∧ tp + fn ≠ 0 ∧
      (f1Computation tp fp fn).1 + (f1Computation tp fp fn).2.1 ≠ 0 := by
  have htp : 0 < tp := lt_of_le_of_ne h0 (Ne.symm hne)
  have h1 : 0 < tp + fp := by linarith
  have h2 : 0 < tp + fn := by linarith
  have hp : 0 < tp / (tp + fp) := div_pos htp h1
  have hr : 0 < tp / (tp + fn) := div_pos htp h2
  refine ⟨ne_of_gt h1, ne_of_gt h2, ?_⟩
  rw [f1Computation_pos hne]
  exact ne_of_gt (add_pos hp hr)

theorem claimC3_witness :
    (0:ℚ) ≤ 1 ∧ (1:ℚ) ≠ 0 ∧ (0:ℚ) ≤ 1 ∧ (0:ℚ) ≤ 1 ∧
      ((1:ℚ) + 1 ≠ 0 ∧ (1:ℚ) + 1 ≠ 0 ∧
        (f1Computation 1 1 1).1 + (f1Computation 1 1 1).2.1 ≠ 0) :=
  ⟨by norm_num, by norm_num, by norm_num, by norm_num,
    claimC3 1 1 1 (by norm_num) (by norm_num) (by norm_num) (by norm_num)⟩

/-- C4 (amended): for every key of the per-batch summaries other than
`tp`, `fp`, `fn` and the three derived names `f1score`, `precision`,
`recall` (which the F1 block overwrites), the reported value is the
arithmetic mean of that metric's per-batch values over the `num_steps`
batches. -/
theorem claimC4 (A : EvalArgs B O L) (st : IterSt B) (n : Nat) (m : Dict)
    (l : ℚ) (hs : evaluate A st n = some (m, l)) (k : String)
    (hk : k ∈ summKeysDef A) (h1 : k ≠ "tp") (h2 : k ≠ "fp") (h3 : k ≠ "fn")
    (h4 : k ≠ "f1score") (h5 : k ≠ "precision") (h6 : k ≠ "recall") :
    dictGet? m k = some ((valsAt A st n k).sum / (n : ℚ)) ∧
      (valsAt A st n k).length = n := by
  obtain ⟨hn, htp2, hfp2, hfn2, hm, hl⟩ := evaluate_some_inv hs
  subst hm
  constructor
  · rw [finalMetrics_get_other hk h1 h2 h3 h4 h5 h6, meanMetric_eq]
  · simp [valsAt]

theorem claimC4_witness :
    evaluate wArgs wIter 1
        = some (finalMetrics wArgs wIter 1, lossMean wArgs wIter 1) ∧
      ("loss" : String) ∈ summKeysDef wArgs ∧
      (dictGet? (finalMetrics wArgs wIter 1) "loss"
          = some ((valsAt wArgs wIter 1 "loss").sum / ((1 : Nat) : ℚ)) ∧
        (valsAt wArgs wIter 1 "loss").length = 1) := by
  have hs : evaluate wArgs wIter 1
      = some (finalMetrics wArgs wIter 1, lossMean wArgs wIter 1) :=
    evaluate_eq wArgs wIter (show 0 < 1 by decide) (by decide) (by decide)
      (by decide)
  exact ⟨hs, by decide,
    claimC4 wArgs wIter 1 _ _ hs "loss" (by decide) (by decide) (by decide)
      (by decide) (by decide) (by decide) (by decide)⟩

/-- C4 counterexample: the claim as stated fails when a per-batch
metric key is named `precision`: with one batch whose `precision`
metric value is `7` (and `tp = fp = fn = 1`), the run succeeds but the
reported `precision` entry is the derived value `1/2`, not the mean `7`
of the per-batch values. -/
theorem claimC4_counterexample :
    ("precision" : String) ∈ summKeysDef cArgs ∧
      ("precision" : String) ∉ (["tp", "fp", "fn"] : List String) ∧
      evaluate cArgs wIter 1
        = some (finalMetrics cArgs wIter 1, lossMean cArgs wIter 1) ∧
      meanMetric cArgs wIter 1 "precision" = 7 ∧
      dictGet? (finalMetrics cArgs wIter 1) "precision" = some (1/2) ∧
      (1/2 : ℚ) ≠ 7 := by
  refine ⟨by decide, by decide,
    evaluate_eq cArgs wIter (show 0 < 1 by decide) (by decide) (by decide)
      (by decide), ?_, ?_, by norm_num⟩
  · simp [meanMetric, npMean, valsAt, summaryValue, batchLoss, cArgs, wIter]
  · rw [finalMetrics_get_precision]
    simp [sumMetric, npSum, valsAt, summaryValue, batchLoss, cArgs, wIter,
      f1Computation]
    norm_num

/-- C5: the loop consumes exactly `num_steps` batches: after the loop
the iterator has seen exactly `n` `next` calls (the stream itself
untouched), the summary list holds exactly `n` entries, and the `i`-th
summary is the one computed from the `i`-th fetched batch. -/
theorem claimC5 (A : EvalArgs B O L) (st : IterSt B) (n : Nat) :
    (evalLoop A ⟨[], RunningAverage.init, st⟩ n).iter.pos = st.pos + n ∧
      (evalLoop A ⟨[], RunningAverage.init, st⟩ n).iter.stream = st.stream ∧
      (evalLoop A ⟨[], RunningAverage.init, st⟩ n).summ.length = n ∧
      ∀ i, i < n → (evalLoop A ⟨[], RunningAverage.init, st⟩ n).summ[i]?
        = some (mkSummary A (st.stream (st.pos + i))) := by
  rw [evalLoop_eq]
  refine ⟨rfl, rfl, by simp, fun i hi => ?_⟩
  simp [List.getElem?_map, List.getElem?_range, hi]

theorem claimC5_witness :
    (evalLoop wArgs ⟨[], RunningAverage.init, wIter⟩ 1).iter.pos
        = wIter.pos + 1 ∧
      (evalLoop wArgs ⟨[], RunningAverage.init, wIter⟩ 1).iter.stream
        = wIter.stream ∧
      (evalLoop wArgs ⟨[], RunningAverage.init, wIter⟩ 1).summ.length = 1 ∧
      (0 < 1 ∧ (evalLoop wArgs ⟨[], RunningAverage.init, wIter⟩ 1).summ[0]?
        = some (mkSummary wArgs (wIter.stream (wIter.pos + 0)))) := by
  obtain ⟨h1, h2, h3, h4⟩ := claimC5 wArgs wIter 1
  exact ⟨h1, h2, h3, by decide, h4 0 (by decide)⟩

/-- C6: the file-name contract: the checkpoint is read from
`<restore_file>.pth.tar` in the model directory, the metrics are
written to `metrics_test_<restore_file>.json` in the model directory,
and the tagged-sentences dump is written as newline-joined plaintext to
`output_tagged_sentences.txt` in the model directory. -/
theorem claimC6 (d f : String) (hd : d ≠ "") (hds : endsWithSlash d = false)
    (hf : startsWithSlash f = false) :
    checkpointPath d f = d ++ "/" ++ f ++ ".pth.tar" ∧
      metricsSavePath d f = d ++ "/metrics_test_" ++ f ++ ".json" ∧
      taggedSentencesPath d = d ++ "/output_tagged_sentences.txt" ∧
      ∀ a b : String, taggedSentencesContent [a, b] = a ++ "\n" ++ b := by
  have hb1 : startsWithSlash (f ++ ".pth.tar") = false :=
    startsWithSlash_append hf (by decide)
  have hb2 : startsWithSlash ("metrics_test_" ++ f ++ ".json") = false :=
    startsWithSlash_append (startsWithSlash_append (by decide) hf) (by decide)
  refine ⟨?_, ?_, ?_, ?_⟩
  · unfold checkpointPath osPathJoin
    rw [if_neg (by simp [hb1]), if_neg hd, if_neg (by simp [hds]),
      ← String.append_assoc]
  · unfold metricsSavePath osPathJoin
    rw [if_neg (by simp [hb2]), if_neg hd, if_neg (by simp [hds])]
    have hlit : ("/" : String) ++ "metrics_test_" = "/metrics_test_" := by decide
    simp only [String.append_assoc]
    rw [← String.append_assoc ("/" : String) "metrics_test_", hlit]
  · unfold taggedSentencesPath osPathJoin
    rw [if_neg (by decide), if_neg hd, if_neg (by simp [hds]),
      String.append_assoc]
    have hlit : ("/" : String) ++ "output_tagged_sentences.txt"
        = "/output_tagged_sentences.txt" := by decide
    rw [hlit]
  · intro a b
    unfold taggedSentencesContent String.intercalate
    rfl

theorem claimC6_witness :
    ("experiments/base_model" : String) ≠ "" ∧
      endsWithSlash "experiments/base_model" = false ∧
      startsWithSlash "best" = false ∧
      (checkpointPath "experiments/base_model" "best"
          = "experiments/base_model" ++ "/" ++ "best" ++ ".pth.tar" ∧
        metricsSavePath "experiments/base_model" "best"
          = "experiments/base_model" ++ "/metrics_test_" ++ "best" ++ ".json" ∧
        taggedSentencesPath "experiments/base_model"
          = "experiments/base_model" ++ "/output_tagged_sentences.txt" ∧
        ∀ a b : String, taggedSentencesContent [a, b] = a ++ "\n" ++ b) :=
  ⟨by decide, by decide, by decide,
    claimC6 "experiments/base_model" "best" (by decide) (by decide) (by decide)⟩

/-- C7: the startup raises its `AssertionError` exactly when
`params.json` is missing from the model directory, and succeeds exactly
when it is present — the existence of the configuration file is the one
assertion-checked condition. -/
theorem claimC7 (isFile : String → Bool) (d : String) :
    ((∃ e, mainStartupCheck isFile d = Except.error e)
        ↔ isFile (paramsJsonPath d) = false) ∧
      (mainStartupCheck isFile d = Except.ok ()
        ↔ isFile (paramsJsonPath d) = true) := by
  unfold mainStartupCheck
  by_cases h : isFile (paramsJsonPath d) = true
  · rw [if_pos h]
    constructor
    · constructor
      · rintro ⟨e, he⟩
        exact absurd he (by simp)
      · intro hf
        rw [h] at hf
        exact absurd hf (by simp)
    · simp [h]
  · rw [if_neg h]
    have hf : isFile (paramsJsonPath d) = false := by simpa using h
    constructor
    · constructor
      · intro
        exact hf
      · intro
        exact ⟨_, rfl⟩
    · simp [hf]

/-- C8: `evaluate` with `num_steps = 0` fails (the `summ[0]` read on an
empty summary list), so at least one step is a precondition for a
result; with `num_steps ≥ 1` the aggregation always sees a nonempty
summary list. -/
theorem claimC8 (A : EvalArgs B O L) (st : IterSt B) :
    evaluate A st 0 = none ∧
      ∀ n : Nat, 1 ≤ n →
        (evalLoop A ⟨[], RunningAverage.init, st⟩ n).summ ≠ [] := by
  refine ⟨rfl, fun n hn => ?_⟩
  rw [summ_evalLoop]
  simp
  omega

theorem claimC8_witness :
    evaluate wArgs wIter 0 = none ∧ 1 ≤ 1 ∧
      (evalLoop wArgs ⟨[], RunningAverage.init, wIter⟩ 1).summ ≠ [] :=
  ⟨(claimC8 wArgs wIter).1, by decide, (claimC8 wArgs wIter).2 1 (by decide)⟩

/-- C9: a successful `evaluate` returns a metrics dictionary with none
of the keys `tp`, `fp`, `fn`, and always with the keys `f1score`,
`precision`, `recall` and `loss`. -/
theorem claimC9 (A : EvalArgs B O L) (st : IterSt B) (n : Nat) (m : Dict)
    (l : ℚ) (hs : evaluate A st n = some (m, l)) :
    ("tp" ∉ dictKeys m ∧ "fp" ∉ dictKeys m ∧ "fn" ∉ dictKeys m) ∧
      ("f1score" ∈ dictKeys m ∧ "precision" ∈ dictKeys m ∧
        "recall" ∈ dictKeys m ∧ "loss" ∈ dictKeys m) := by
  obtain ⟨hn, htp, hfp, hfn, hm, hl⟩ := evaluate_some_inv hs
  subst hm
  have hkeys := dictKeys_meanDict A st n
  unfold finalMetrics
  constructor
  · refine ⟨fun hmem => ?_, fun hmem => ?_, fun hmem => ?_⟩
    · rw [mem_dictKeys_filter, mem_dictKeys_filter, mem_dictKeys_filter] at hmem
      exact hmem.1.1.2 rfl
    · rw [mem_dictKeys_filter, mem_dictKeys_filter] at hmem
      exact hmem.1.2 rfl
    · rw [mem_dictKeys_filter] at hmem
      exact hmem.2 rfl
  · refine ⟨?_, ?_, ?_, ?_⟩
    · rw [mem_dictKeys_filter, mem_dictKeys_filter, mem_dictKeys_filter]
      refine ⟨⟨⟨?_, by decide⟩, by decide⟩, by decide⟩
      rw [mem_dictKeys_dictSet_of_ne (by decide),
        mem_dictKeys_dictSet_of_ne (by decide)]
      exact self_mem_dictKeys_dictSet _ _ _
    · rw [mem_dictKeys_filter, mem_dictKeys_filter, mem_dictKeys_filter]
      refine ⟨⟨⟨?_, by decide⟩, by decide⟩, by decide⟩
      rw [mem_dictKeys_dictSet_of_ne (by decide)]
      exact self_mem_dictKeys_dictSet _ _ _
    · rw [mem_dictKeys_filter, mem_dictKeys_filter, mem_dictKeys_filter]
      refine ⟨⟨⟨?_, by decide⟩, by decide⟩, by decide⟩
      exact self_mem_dictKeys_dictSet _ _ _
    · rw [mem_dictKeys_filter, mem_dictKeys_filter, mem_dictKeys_filter]
      refine ⟨⟨⟨?_, by decide⟩, by decide⟩, by decide⟩
      exact mem_dictKeys_setThree _ _ _ (hkeys ▸ loss_mem_summKeysDef A)
        (by decide) (by decide) (by decide)

theorem claimC9_witness :
    evaluate wArgs wIter 1
        = some (finalMetrics wArgs wIter 1, lossMean wArgs wIter 1) ∧
      (("tp" ∉ dictKeys (finalMetrics wArgs wIter 1) ∧
          "fp" ∉ dictKeys (finalMetrics wArgs wIter 1) ∧
          "fn" ∉ dictKeys (finalMetrics wArgs wIter 1)) ∧
        ("f1score" ∈ dictKeys (finalMetrics wArgs wIter 1) ∧
          "precision" ∈ dictKeys (finalMetrics wArgs wIter 1) ∧
          "recall" ∈ dictKeys (finalMetrics wArgs wIter 1) ∧
          "loss" ∈ dictKeys (finalMetrics wArgs wIter 1))) := by
  have hs : evaluate wArgs wIter 1
      = some (finalMetrics wArgs wIter 1, lossMean wArgs wIter 1) :=
    evaluate_eq wArgs wIter (show 0 < 1 by decide) (by decide) (by decide)
      (by decide)
  exact ⟨hs, claimC9 wArgs wIter 1 _ _ hs⟩

/-- C10: the loss is averaged twice — by the `loss_avg` running
accumulator returned as the second result, and as the mean of the
per-batch `loss` entries stored in the metrics dictionary — and on
every successful run the two values coincide. -/
theorem claimC10 (A : EvalArgs B O L) (st : IterSt B) (n : Nat) (m : Dict)
    (l : ℚ) (hs : evaluate A st n = some (m, l)) :
    dictGet? m "loss" = some l := by
  obtain ⟨hn, htp, hfp, hfn, hm, hl⟩ := evaluate_some_inv hs
  subst hm
  subst hl
  rw [finalMetrics_get_other (loss_mem_summKeysDef A) (by decide) (by decide)
    (by decide) (by decide) (by decide) (by decide)]
  rfl

theorem claimC10_witness :
    evaluate wArgs wIter 1
        = some (finalMetrics wArgs wIter 1, lossMean wArgs wIter 1) ∧
      dictGet? (finalMetrics wArgs wIter 1) "loss"
        = some (lossMean wArgs wIter 1) := by
  have hs : evaluate wArgs wIter 1
      = some (finalMetrics wArgs wIter 1, lossMean wArgs wIter 1) :=
    evaluate_eq wArgs wIter (show 0 < 1 by decide) (by decide) (by decide)
      (by decide)
  exact ⟨hs, claimC10 wArgs wIter 1 _ _ hs⟩

end GlossaryEval
